import Mathlib

/-! The flag store, the connect handler and the handover task of txwifi.

A shallow embedding of `main.go`.

* A Go `string` is a sequence of bytes. It is embedded as `List Char`, one
  `Char` per byte (every byte value 0..255 is a `Char`). The embedded library
  functions only compare bytes for equality and test for ASCII digits, so a
  statement proved for all `List Char` holds for all byte strings.
* `int` is embedded as `Int` with an explicit range check for the width
  `intSize` (32 or 64 on the platforms Go supports).
* `log.Fatalln` and runtime panics are embedded as the error side of `Except`.
-/

namespace Txwifi

/-- A Go string: a sequence of bytes. -/
abbrev GoString := List Char

/-! ## Library functions used by the flag store -/

/-- Go `strings.Split(s, sep)` for a one-byte separator `sep`: the pieces of `s`
between the occurrences of `sep`, one more piece than there are occurrences. -/
def Split : GoString → Char → List GoString
  | [], _ => [[]]
  | c :: cs, sep =>
    if c = sep then [] :: Split cs sep
    else
      match Split cs sep with
      | [] => [[c]]
      | p :: ps => (c :: p) :: ps

/-- Go `strings.Join(elems, sep)` for a one-byte separator `sep`. -/
def Join : List GoString → Char → GoString
  | [], _ => []
  | [l], _ => l
  | l :: m :: ls, sep => l ++ sep :: Join (m :: ls) sep

/-- Go `strings.HasPrefix(s, prefix)`. -/
def HasPrefix : GoString → GoString → Bool
  | _, [] => true
  | [], _ :: _ => false
  | c :: cs, p :: ps => c == p && HasPrefix cs ps

/-- Go `strings.Contains(s, substr)`: `substr` occurs somewhere within `s`. -/
def Contains : GoString → GoString → Bool
  | [], substr => HasPrefix [] substr
  | c :: cs, substr => HasPrefix (c :: cs) substr || Contains cs substr

/-- The value of an ASCII decimal digit, if the byte is one. -/
def digitVal (c : Char) : Option Nat :=
  if 48 ≤ c.toNat ∧ c.toNat ≤ 57 then some (c.toNat - 48) else none

/-- The digit loop of `strconv.ParseUint` in base 10: `n = n*10 + digit`,
failing on the first byte that is not a decimal digit. -/
def parseDigits : GoString → Nat → Option Nat
  | [], n => some n
  | c :: cs, n =>
    match digitVal c with
    | none => none
    | some d => parseDigits cs (n * 10 + d)

/-- Go `strconv.Atoi(s)` for an `int` of `intSize` bits, `none` standing for a
non-nil error (`ErrSyntax` or `ErrRange`): an optional sign, then one or more
decimal digits, and the value has to fit the signed range of the width. -/
def Atoi (intSize : Nat) (s : GoString) : Option Int :=
  match s with
  | [] => none
  | c :: r =>
    let digits := if c = '-' ∨ c = '+' then r else c :: r
    if digits.isEmpty then none
    else
      match parseDigits digits 0 with
      | none => none
      | some n =>
        if c = '-' then
          if n ≤ 2 ^ (intSize - 1) then some (-(n : Int)) else none
        else
          if n < 2 ^ (intSize - 1) then some (n : Int) else none

/-- The decimal digits of a natural number, most significant first, with `fuel`
bounding the number of digits produced. -/
def natDigits : Nat → Nat → GoString
  | 0, _ => []
  | fuel + 1, n =>
    if n < 10 then [Char.ofNat (48 + n)]
    else natDigits fuel (n / 10) ++ [Char.ofNat (48 + n % 10)]

/-- Go `strconv.Itoa(n)`: the decimal string of `n`, with a leading `-` for a
negative number. -/
def Itoa (n : Int) : GoString :=
  if n < 0 then '-' :: natDigits (n.natAbs + 1) n.natAbs
  else natDigits (n.natAbs + 1) n.natAbs

/-! ## The file system -/

/-- The part of the file system the flag store touches: the content of each
readable file, and which files can be written. -/
structure FileSystem where
  content : GoString → Option GoString
  writable : GoString → Bool

/-- Go `ioutil.WriteFile(name, data, 0644)` on a writable file. -/
def FileSystem.write (fs : FileSystem) (name data : GoString) : FileSystem :=
  { fs with content := fun f => if f = name then some data else fs.content f }

/-- The ways `readConfig` and `editConfig` stop the program. -/
inductive Failure
  /-- the call `log.Fatalln(err)` after `ioutil.ReadFile` failed -/
  | readError
  /-- the call `log.Fatalln(err)` after `strconv.Atoi` failed -/
  | parseError
  /-- runtime panic: index out of range -/
  | indexOutOfRange
  /-- the call `log.Fatalln(err)` after `ioutil.WriteFile` failed -/
  | writeError
  deriving DecidableEq, Repr

deriving instance DecidableEq for Except

/-! ## readConfig -/

/-- The `for _, line := range lines` loop of `readConfig`, `val` being the value
kept so far. -/
def readConfigLoop (intSize : Nat) (configName : GoString) :
    List GoString → Int → Except Failure Int
  | [], val => .ok val
  | line :: rest, val =>
    if Contains line configName then
      match (Split line '=')[1]? with
      | none => .error .indexOutOfRange
      | some t =>
        match Atoi intSize t with
        | none => .error .parseError
        | some v => readConfigLoop intSize configName rest v
    else readConfigLoop intSize configName rest val

/-- The function `readConfig(fileName, configName)`. -/
def readConfig (intSize : Nat) (fs : FileSystem) (fileName configName : GoString) :
    Except Failure Int :=
  match fs.content fileName with
  | none => .error .readError
  | some input => readConfigLoop intSize configName (Split input '\n') 0

/-! ## editConfig -/

/-- The inner loop `for x := 0; x < len(configName); x++` of `editConfig` for one
line, run over the indices `xs`; `cur` is the current `lines[i]`, `line` the
loop variable, which keeps the line as it was read. -/
def editLine (configName val : List GoString) (line : GoString) :
    List Nat → GoString → Except Failure GoString
  | [], cur => .ok cur
  | x :: xs, cur =>
    if Contains line (configName.getD x []) then
      match val[x]? with
      | none => .error .indexOutOfRange
      | some v => editLine configName val line xs (configName.getD x [] ++ '=' :: v)
    else editLine configName val line xs cur

/-- The outer loop `for i, line := range lines` of `editConfig`. -/
def editLines (configName val : List GoString) :
    List GoString → Except Failure (List GoString)
  | [] => .ok []
  | line :: rest =>
    match editLine configName val line (List.range configName.length) line with
    | .error e => .error e
    | .ok l =>
      match editLines configName val rest with
      | .error e => .error e
      | .ok ls => .ok (l :: ls)

/-- The function `editConfig(fileName, configName, val)`: the file system after
the call, or the failure that stopped it. -/
def editConfig (fs : FileSystem) (fileName : GoString) (configName val : List GoString) :
    Except Failure FileSystem :=
  match fs.content fileName with
  | none => .error .readError
  | some input =>
    match editLines configName val (Split input '\n') with
    | .error e => .error e
    | .ok lines =>
      if fs.writable fileName then .ok (fs.write fileName (Join lines '\n'))
      else .error .writeError

/-- A file system holding the single readable and writable file `name`. -/
def FileSystem.single (name data : GoString) : FileSystem :=
  { content := fun f => if f = name then some data else none
    writable := fun f => f = name }

/-- The name of the configuration file, `configFileName` in `main`. -/
def configFileName : GoString := "cfg/.app_config".toList

/-- The whole text of a line after its first `=` (empty when there is none). -/
def afterFirstEq (line : GoString) : GoString :=
  (line.dropWhile (fun c => c != '=')).drop 1

/-- The text of a line between its first `=` and its next `=`, or the end of
the line when there is no second one. -/
def secondField (line : GoString) : GoString :=
  (afterFirstEq line).takeWhile (fun c => c != '=')

/-- The last of the lines that contains `name` as a substring. -/
def lastMatch (name : GoString) (lines : List GoString) : Option GoString :=
  (lines.filter (fun l => Contains l name)).getLast?

/-! ## The HTTP response -/

/-- The state of an `http.ResponseWriter`: the header map `w.Header()`, the
status line and headers once they have been sent, and the body written. -/
structure ResponseWriter where
  header : List (GoString × GoString)
  status : Option Nat
  sentHeader : List (GoString × GoString)
  body : GoString

/-- A response nothing has been written to. -/
def ResponseWriter.fresh : ResponseWriter :=
  { header := [], status := none, sentHeader := [], body := [] }

/-- The call `w.Header().Set(key, value)`. -/
def ResponseWriter.headerSet (w : ResponseWriter) (key value : GoString) : ResponseWriter :=
  { w with header := (key, value) :: w.header.filter (fun kv => kv.1 != key) }

/-- The call `w.WriteHeader(code)`: the first call sends the status and the
header map as it is then, a later call changes nothing. -/
def ResponseWriter.writeHeader (w : ResponseWriter) (code : Nat) : ResponseWriter :=
  match w.status with
  | some _ => w
  | none => { w with status := some code, sentHeader := w.header }

/-- The call `w.Write(data)`: sends status 200 first if no status was sent yet,
then appends `data` to the body. -/
def ResponseWriter.write (w : ResponseWriter) (data : GoString) : ResponseWriter :=
  let w1 := w.writeHeader 200
  { w1 with body := w1.body ++ data }

/-- Go `http.Error(w, error, code)`: plain-text headers, the status `code`, and
the error text followed by a newline as body. -/
def httpError (w : ResponseWriter) (error : GoString) (code : Nat) : ResponseWriter :=
  let w1 := w.headerSet "Content-Type".toList "text/plain; charset=utf-8".toList
  let w2 := w1.headerSet "X-Content-Type-Options".toList "nosniff".toList
  (w2.writeHeader code).write (error ++ ['\n'])

/-- The constant `http.StatusInternalServerError`. -/
def StatusInternalServerError : Nat := 500

/-- Modelled from the spec: the type `iotwifi.WpaCredentials`, declared outside
`main.go`; the spec gives a credential as `(ssid, psk)`. -/
structure WpaCredentials where
  Ssid : GoString
  Psk : GoString
  deriving DecidableEq

/-- The struct `ApiReturn`, whose payload is a connection result of type `Conn`
or nil. -/
structure ApiReturn (Conn : Type) where
  Status : GoString
  Message : GoString
  Payload : Option Conn

/-- What the connect handler calls outside `main.go`, taken as parameters:
the JSON decoder and encoder and the wireless service. `Conn` is the type of
the connection result, `iotwifi.WpaConnection`. -/
structure Env (Conn : Type) where
  /-- the call `decoder.Decode(&v)` on the bytes of the body: the credentials after the
  call and the text of the error, if there is one -/
  decode : GoString → WpaCredentials × Option GoString
  /-- the call `wpacfg.ConnectNetwork(creds)`: the connection, or the text of the error -/
  connectNetwork : WpaCredentials → Except GoString Conn
  /-- the call `json.Marshal(apiReturn)`: the bytes, or the text of the error -/
  marshal : ApiReturn Conn → Except GoString GoString

/-- The closure `marshallPost(w, r, v)`: `body` is the result of
`ioutil.ReadAll(r.Body)`, `v` the credentials the caller passed by reference.
It returns nothing to its caller; the response and the credentials come back
as they are after the call. -/
def marshallPost {Conn : Type} (env : Env Conn) (w : ResponseWriter)
    (body : Except GoString GoString) (v : WpaCredentials) :
    ResponseWriter × WpaCredentials :=
  match body with
  | .error err => (httpError w err StatusInternalServerError, v)
  | .ok bytes =>
    match env.decode bytes with
    | (v1, some err) => (httpError w err StatusInternalServerError, v1)
    | (v1, none) => (w, v1)

/-- The closure `retError(w, err)`; the error of `json.Marshal` is dropped
there, which leaves `ret` nil. -/
def retError {Conn : Type} (env : Env Conn) (w : ResponseWriter) (err : GoString) :
    ResponseWriter :=
  let ret :=
    match env.marshal { Status := "FAIL".toList, Message := err, Payload := none } with
    | .ok bytes => bytes
    | .error _ => []
  (w.headerSet "Content-Type".toList "application/json".toList).write ret

/-! ## The handover task and the channel `configMsg` -/

/-- The constant `time.Second`, in nanoseconds, the unit of `time.Duration`. -/
def Second : Nat := 1000000000

/-- Where the goroutine started in `main` stands. -/
inductive TaskPc
  /-- blocked in `chk := <-configMsg` -/
  | awaitSignal
  /-- received; before `blog.Info` and the test `chk == true` -/
  | afterSignal
  /-- inside `time.Sleep(5 * time.Second)` -/
  | graceSleep
  /-- before the call `wpacfg.DisableAP()` -/
  | callDisableAP
  /-- inside `wpacfg.DisableAP()`, called and not yet returned -/
  | inDisableAP
  /-- inside `time.Sleep(2 * time.Second)` -/
  | settleSleep
  /-- before `close(configMsg)` -/
  | closeChan
  /-- the goroutine has returned -/
  | finished
  deriving DecidableEq, Repr

/-- What is observed of the handover. -/
inductive Event
  /-- the receive `<-configMsg` completed -/
  | signalReceived
  /-- the call of `wpacfg.DisableAP()` -/
  | disableAP
  /-- the statement `close(configMsg)` ran: the final state -/
  | chanClosed
  /-- a handler blocked in `configMsg <- true`, no receiver being ready -/
  | senderBlocked
  /-- a handler panicked in `configMsg <- true`: send on closed channel -/
  | sendPanic
  deriving DecidableEq, Repr

/-- The clock, the goroutine, the unbuffered channel `configMsg`, and the
events so far with their times, the most recent first. -/
structure Handover where
  now : Nat
  pc : TaskPc
  chk : Bool
  sleepUntil : Nat
  closed : Bool
  blockedSenders : Nat
  trace : List (Nat × Event)

/-- The handover when the webserver starts at time `t`: the channel is made
and the goroutine waits for the signal. -/
def Handover.init (t : Nat) : Handover :=
  { now := t, pc := .awaitSignal, chk := false, sleepUntil := 0, closed := false,
    blockedSenders := 0, trace := [] }

/-- How a run of a handler ends. -/
inductive HandlerEnd
  /-- the handler returned -/
  | returned
  /-- the call `log.Fatalln` inside `editConfig` ended the process -/
  | fatal (f : Failure)
  /-- the handler panicked: send on closed channel -/
  | panicked
  /-- the handler is blocked in the send -/
  | blocked
  deriving DecidableEq, Repr

/-- The statement `configMsg <- true` of a handler. On a closed channel it
panics; when the goroutine waits in the receive the value is handed over;
otherwise nobody receives and the handler blocks. -/
def chanSend (h : Handover) : Handover × HandlerEnd :=
  if h.closed then
    ({ h with trace := (h.now, .sendPanic) :: h.trace }, .panicked)
  else if h.pc = .awaitSignal then
    ({ h with pc := .afterSignal, chk := true,
              trace := (h.now, .signalReceived) :: h.trace }, .returned)
  else
    ({ h with blockedSenders := h.blockedSenders + 1,
              trace := (h.now, .senderBlocked) :: h.trace }, .blocked)

/-- The goroutine runs its next statement, if it can. A sleep ends only once
its duration has passed; closing the channel makes every blocked sender
panic. -/
def taskStep (h : Handover) : Handover :=
  match h.pc with
  | .awaitSignal => h
  | .afterSignal =>
    if h.chk = true then
      { h with pc := .graceSleep, sleepUntil := h.now + 5 * Second }
    else { h with pc := .finished }
  | .graceSleep => if h.sleepUntil ≤ h.now then { h with pc := .callDisableAP } else h
  | .callDisableAP =>
    { h with pc := .inDisableAP, trace := (h.now, .disableAP) :: h.trace }
  | .inDisableAP => { h with pc := .settleSleep, sleepUntil := h.now + 2 * Second }
  | .settleSleep => if h.sleepUntil ≤ h.now then { h with pc := .closeChan } else h
  | .closeChan =>
    { h with pc := .finished, closed := true, blockedSenders := 0,
             trace := List.replicate h.blockedSenders (h.now, .sendPanic)
               ++ (h.now, .chanClosed) :: h.trace }
  | .finished => h

/-! ## The connect handler and the process -/

/-- The process: the file system, the handover, whether `log.Fatalln` has ended
it, and the responses of the connect handlers run so far with the way each
ended, the most recent first. -/
structure Proc where
  fs : FileSystem
  handover : Handover
  exited : Bool
  responses : List (ResponseWriter × HandlerEnd)

/-- The closure `connectHandler(w, r)`, `body` being the result of
`ioutil.ReadAll(r.Body)`: the response, the file system and the handover after
it, and the way it ended. -/
def connectHandler {Conn : Type} (env : Env Conn) (fs : FileSystem) (h : Handover)
    (w : ResponseWriter) (body : Except GoString GoString) :
    ResponseWriter × FileSystem × Handover × HandlerEnd :=
  let (w1, creds) := marshallPost env w body { Ssid := [], Psk := [] }
  match env.connectNetwork creds with
  | .error _ => (w1, fs, h, .returned)
  | .ok connection =>
    match env.marshal
        { Status := "OK".toList, Message := "Connection".toList, Payload := some connection } with
    | .error err => (retError env w1 err, fs, h, .returned)
    | .ok ret =>
      let w2 := (w1.headerSet "Content-Type".toList "application/json".toList).write ret
      match editConfig fs configFileName ["reconfiguration".toList] ["0".toList] with
      | .error f => (w2, fs, h, .fatal f)
      | .ok fs1 =>
        let (h1, e) := chanSend h
        (w2, fs1, h1, e)

/-- What happens next in the process. -/
inductive Action
  /-- time passes, `d` nanoseconds -/
  | tick (d : Nat)
  /-- the goroutine runs its next statement -/
  | task
  /-- a POST `/connect` is served, `body` being what reading its body gives -/
  | connect (body : Except GoString GoString)

/-- One step of the process. Nothing happens once the process has exited. -/
def step {Conn : Type} (env : Env Conn) (p : Proc) : Action → Proc
  | .tick d => if p.exited then p else { p with handover := { p.handover with now := p.handover.now + d } }
  | .task => if p.exited then p else { p with handover := taskStep p.handover }
  | .connect body =>
    if p.exited then p
    else
      match connectHandler env p.fs p.handover ResponseWriter.fresh body with
      | (w, fs1, h1, e) =>
        { fs := fs1, handover := h1,
          exited := match e with
            | .fatal _ => true
            | _ => false,
          responses := (w, e) :: p.responses }

/-- A run of the process: the actions of `acts` one after the other. -/
def run {Conn : Type} (env : Env Conn) (p : Proc) (acts : List Action) : Proc :=
  acts.foldl (step env) p

/-- The process when the webserver starts at time `t` on the file system `fs`. -/
def Proc.start (fs : FileSystem) (t : Nat) : Proc :=
  { fs := fs, handover := Handover.init t, exited := false, responses := [] }

/-- A stand-in for what lies outside `main.go`, for evaluating runs: a decoder
that accepts exactly the body `{"ssid":"Foo","psk":"secret123"}` and reports
an error on any other, leaving the credentials zero; a wireless service whose
`ConnectNetwork` succeeds; an encoder that writes the envelope. -/
def Env.stub : Env Unit :=
  { decode := fun bytes =>
      if bytes = "\x7b\"ssid\":\"Foo\",\"psk\":\"secret123\"\x7d".toList then
        ({ Ssid := "Foo".toList, Psk := "secret123".toList }, none)
      else
        ({ Ssid := [], Psk := [] }, some "invalid character".toList)
    connectNetwork := fun _ => .ok ()
    marshal := fun r =>
      .ok ("\x7b\"status\":\"".toList ++ r.Status ++ "\",\"message\":\"".toList ++ r.Message
        ++ "\",\"payload\":".toList
        ++ (match r.Payload with
            | some _ => "\x7b\x7d".toList
            | none => "null".toList)
        ++ "\x7d".toList) }

/-- The body `{"ssid":"Foo","psk":"secret123"}` of a well-formed request. -/
def goodBody : GoString := "\x7b\"ssid\":\"Foo\",\"psk\":\"secret123\"\x7d".toList

/-- The envelope `{"status":"OK","message":"Connection","payload":{}}`. -/
def okEnvelope : GoString :=
  "\x7b\"status\":\"OK\",\"message\":\"Connection\",\"payload\":\x7b\x7d\x7d".toList

/-- A complete handover: a connect, the grace sleep of 5 seconds, the call of
`DisableAP`, the settling sleep of 2 seconds, the close. -/
def handoverActs : List Action :=
  [.connect (.ok goodBody), .task, .tick (5 * Second), .task, .task, .task,
    .tick (2 * Second), .task, .task]

/-- What holds of the handover at every moment of every run. -/
structure TimingInv (h : Handover) : Prop where
  await : h.pc = .awaitSignal → h.trace = [] ∧ h.closed = false
  signalled : h.pc ≠ .awaitSignal → ∃ t0, (t0, Event.signalReceived) ∈ h.trace
  oneSignal : ∀ t0 t1, (t0, Event.signalReceived) ∈ h.trace →
    (t1, Event.signalReceived) ∈ h.trace → t0 = t1
  past : ∀ t0, (t0, Event.signalReceived) ∈ h.trace → t0 ≤ h.now
  grace : ∀ t0 t, (t0, Event.signalReceived) ∈ h.trace → (t, Event.disableAP) ∈ h.trace →
    t0 + 5 * Second ≤ t ∧ t ≤ h.now
  final : ∀ t0 t, (t0, Event.signalReceived) ∈ h.trace → (t, Event.chanClosed) ∈ h.trace →
    t0 + 7 * Second ≤ t ∧ ∃ td, (td, Event.disableAP) ∈ h.trace ∧ td + 2 * Second ≤ t
  pcGrace : h.pc = .graceSleep →
    ∀ t0, (t0, Event.signalReceived) ∈ h.trace → t0 + 5 * Second ≤ h.sleepUntil
  pcCall : h.pc = .callDisableAP →
    ∀ t0, (t0, Event.signalReceived) ∈ h.trace → t0 + 5 * Second ≤ h.now
  pcIn : h.pc = .inDisableAP → ∃ td, (td, Event.disableAP) ∈ h.trace
  pcSettle : h.pc = .settleSleep →
    ∃ td, (td, Event.disableAP) ∈ h.trace ∧ td + 2 * Second ≤ h.sleepUntil
  pcClose : h.pc = .closeChan →
    ∃ td, (td, Event.disableAP) ∈ h.trace ∧ td + 2 * Second ≤ h.now

/-- What `editConfig` makes of one line when asked for the single pair
`name`, `value`. -/
def rewriteLine (name value line : GoString) : GoString :=
  if Contains line name then name ++ '=' :: value else line

/-! ## Theorems -/

/-! ### Split and Join -/

theorem Split_ne_nil (s : GoString) (sep : Char) : Split s sep ≠ [] := by
  induction s with
  | nil => simp [Split]
  | cons c cs ih =>
    unfold Split
    split
    · simp
    · split <;> simp

theorem Join_cons_cons (l m : GoString) (ls : List GoString) (sep : Char) :
    Join (l :: m :: ls) sep = l ++ sep :: Join (m :: ls) sep := rfl

theorem Join_cons_of_ne_nil (l : GoString) (ls : List GoString) (sep : Char)
    (h : ls ≠ []) : Join (l :: ls) sep = l ++ sep :: Join ls sep := by
  cases ls with
  | nil => exact absurd rfl h
  | cons m ms => rfl

theorem Split_cons_sep (cs : GoString) (sep : Char) :
    Split (sep :: cs) sep = [] :: Split cs sep := by
  simp [Split]

theorem Split_cons_ne (c : Char) (cs : GoString) (sep : Char) (h : c ≠ sep)
    (p : GoString) (ps : List GoString) (hs : Split cs sep = p :: ps) :
    Split (c :: cs) sep = (c :: p) :: ps := by
  simp [Split, h, hs]

/-- Splitting on a separator and joining with it again gives the string back. -/
theorem Join_Split (s : GoString) (sep : Char) : Join (Split s sep) sep = s := by
  induction s with
  | nil => simp [Split, Join]
  | cons c cs ih =>
    by_cases h : c = sep
    · subst h
      rw [Split_cons_sep, Join_cons_of_ne_nil _ _ _ (Split_ne_nil cs c), ih]
      simp
    · obtain ⟨p, ps, hs⟩ := List.exists_cons_of_ne_nil (Split_ne_nil cs sep)
      rw [Split_cons_ne c cs sep h p ps hs]
      rw [hs] at ih
      cases ps with
      | nil =>
        simp only [Join] at ih ⊢
        rw [ih]
      | cons q qs =>
        rw [Join_cons_cons] at ih ⊢
        rw [← ih]
        simp

theorem Split_of_not_mem (s : GoString) (sep : Char) (h : sep ∉ s) :
    Split s sep = [s] := by
  induction s with
  | nil => simp [Split]
  | cons c cs ih =>
    have hc : c ≠ sep := fun e => h (by simp [e])
    have hcs : sep ∉ cs := fun e => h (by simp [e])
    exact Split_cons_ne c cs sep hc cs [] (ih hcs)

theorem Split_append_sep (a b : GoString) (sep : Char) (h : sep ∉ a) :
    Split (a ++ sep :: b) sep = a :: Split b sep := by
  induction a with
  | nil => simp [Split]
  | cons c cs ih =>
    have hc : c ≠ sep := fun e => h (by simp [e])
    have hcs : sep ∉ cs := fun e => h (by simp [e])
    exact Split_cons_ne c (cs ++ sep :: b) sep hc cs (Split b sep) (ih hcs)

/-- No piece of a split contains the separator. -/
theorem not_mem_of_mem_Split (s : GoString) (sep : Char) :
    ∀ l ∈ Split s sep, sep ∉ l := by
  induction s with
  | nil => simp [Split]
  | cons c cs ih =>
    by_cases h : c = sep
    · subst h
      rw [Split_cons_sep]
      intro l hl
      rcases List.mem_cons.1 hl with rfl | hl
      · simp
      · exact ih l hl
    · obtain ⟨p, ps, hs⟩ := List.exists_cons_of_ne_nil (Split_ne_nil cs sep)
      rw [Split_cons_ne c cs sep h p ps hs]
      rw [hs] at ih
      intro l hl
      rcases List.mem_cons.1 hl with rfl | hl
      · have hp := ih p (by simp)
        intro hmem
        rcases List.mem_cons.1 hmem with e | e
        · exact h e.symm
        · exact hp e
      · exact ih l (by simp [hl])

/-- Joining lines that contain no separator and splitting again gives the
lines back. -/
theorem Split_Join (ls : List GoString) (sep : Char) (hne : ls ≠ [])
    (h : ∀ l ∈ ls, sep ∉ l) : Split (Join ls sep) sep = ls := by
  induction ls with
  | nil => exact absurd rfl hne
  | cons l rest ih =>
    cases rest with
    | nil =>
      simp only [Join]
      exact Split_of_not_mem l sep (h l (by simp))
    | cons m ms =>
      rw [Join_cons_cons, Split_append_sep _ _ _ (h l (by simp))]
      rw [ih (by simp) (fun x hx => h x (by simp [hx]))]

/-! ### editConfig -/

theorem editLine_no_match (configName val : List GoString) (line : GoString)
    (xs : List Nat) (cur : GoString)
    (h : ∀ x ∈ xs, Contains line (configName.getD x []) = false) :
    editLine configName val line xs cur = .ok cur := by
  induction xs generalizing cur with
  | nil => rfl
  | cons x xs ih =>
    have hx := h x (by simp)
    simp only [editLine, hx]
    exact ih cur (fun y hy => h y (by simp [hy]))

theorem getD_mem_of_lt (configName : List GoString) (x : Nat)
    (h : x < configName.length) : configName.getD x [] ∈ configName := by
  rw [List.getD_eq_getElem _ _ h]
  exact List.getElem_mem h

theorem editLines_no_match (configName val : List GoString) (lines : List GoString)
    (h : ∀ line ∈ lines, ∀ name ∈ configName, Contains line name = false) :
    editLines configName val lines = .ok lines := by
  induction lines with
  | nil => rfl
  | cons line rest ih =>
    have h1 : editLine configName val line (List.range configName.length) line
        = .ok line := by
      apply editLine_no_match
      intro x hx
      exact h line (by simp) _ (getD_mem_of_lt configName x (List.mem_range.1 hx))
    simp only [editLines, h1, ih (fun l hl => h l (by simp [hl]))]

theorem editLine_single (name value line : GoString) :
    editLine [name] [value] line (List.range [name].length) line
      = .ok (rewriteLine name value line) := by
  have hr : List.range [name].length = [0] := rfl
  rw [hr]
  by_cases h : Contains line name = true
  · simp [editLine, rewriteLine, h]
  · simp [editLine, rewriteLine, h]

theorem editLines_single (name value : GoString) (lines : List GoString) :
    editLines [name] [value] lines = .ok (lines.map (rewriteLine name value)) := by
  induction lines with
  | nil => rfl
  | cons line rest ih =>
    simp only [editLines, editLine_single, ih, List.map_cons]

theorem rewriteLine_not_mem (name value line : GoString) (sep : Char)
    (hn : sep ∉ name) (hv : sep ∉ value) (hsep : sep ≠ '=') (hl : sep ∉ line) :
    sep ∉ rewriteLine name value line := by
  unfold rewriteLine
  split
  · intro hm
    rcases List.mem_append.1 hm with e | e
    · exact hn e
    · rcases List.mem_cons.1 e with e | e
      · exact hsep e
      · exact hv e
  · exact hl

/-- With one pair and a file that can be read and written, `editConfig` writes
the lines of the file, each rewritten by `rewriteLine`, joined by newlines, and
that content splits into exactly those lines. -/
theorem editConfig_single_eq (fs : FileSystem) (fileName input name value : GoString)
    (hread : fs.content fileName = some input) (hw : fs.writable fileName = true)
    (hname : '\n' ∉ name) (hvalue : '\n' ∉ value) :
    ∃ output, editConfig fs fileName [name] [value] = .ok (fs.write fileName output) ∧
      Split output '\n' = (Split input '\n').map (rewriteLine name value) := by
  refine ⟨Join ((Split input '\n').map (rewriteLine name value)) '\n', ?_, ?_⟩
  · simp only [editConfig, hread, editLines_single, hw, if_true]
  · apply Split_Join
    · simpa using Split_ne_nil input '\n'
    · intro l hl
      obtain ⟨m, hm, rfl⟩ := List.mem_map.1 hl
      exact rewriteLine_not_mem name value m '\n' hname hvalue (by decide)
        (not_mem_of_mem_Split input '\n' m hm)

theorem write_content_self (fs : FileSystem) (name data : GoString) :
    (fs.write name data).content name = some data := by
  simp [FileSystem.write]

/-! ### C1 -/

/-- C1: for every readable and writable file and every name and value without a
newline, `editConfig(file, [name], [value])` succeeds and writes a content with
as many newline-separated lines as the content it read, in which the line at
each position is `name=value` when the input line there contained `name` as a
substring, and is the input line itself when it did not. -/
theorem editConfig_single_rewrites (fs : FileSystem)
    (fileName input name value : GoString)
    (hread : fs.content fileName = some input) (hw : fs.writable fileName = true)
    (hname : '\n' ∉ name) (hvalue : '\n' ∉ value) :
    ∃ fs' output, editConfig fs fileName [name] [value] = .ok fs' ∧
      fs'.content fileName = some output ∧
      (Split output '\n').length = (Split input '\n').length ∧
      ∀ (i : Nat) (line : GoString), (Split input '\n')[i]? = some line →
        (Contains line name = true →
          (Split output '\n')[i]? = some (name ++ '=' :: value)) ∧
        (Contains line name = false → (Split output '\n')[i]? = some line) := by
  obtain ⟨output, he, hs⟩ := editConfig_single_eq fs fileName input name value
    hread hw hname hvalue
  refine ⟨fs.write fileName output, output, he, write_content_self _ _ _, ?_, ?_⟩
  · rw [hs, List.length_map]
  · intro i line hi
    rw [hs]
    rw [List.getElem?_map, hi]
    constructor
    · intro hc
      simp [rewriteLine, hc]
    · intro hc
      simp [rewriteLine, hc]

/-- C1 witness: name `reconfiguration`, value `0`, and a file holding the line
`reconfiguration=1` between two other lines. -/
theorem editConfig_single_rewrites_witness :
    ∃ fs' output,
      editConfig (FileSystem.single configFileName "# flags\nreconfiguration=1\nmode = ap".toList)
        configFileName ["reconfiguration".toList] ["0".toList] = .ok fs' ∧
      fs'.content configFileName = some output ∧
      (Split output '\n').length
        = (Split "# flags\nreconfiguration=1\nmode = ap".toList '\n').length ∧
      ∀ (i : Nat) (line : GoString), (Split "# flags\nreconfiguration=1\nmode = ap".toList '\n')[i]? = some line →
        (Contains line "reconfiguration".toList = true →
          (Split output '\n')[i]? = some ("reconfiguration".toList ++ '=' :: "0".toList)) ∧
        (Contains line "reconfiguration".toList = false →
          (Split output '\n')[i]? = some line) :=
  editConfig_single_rewrites
    (FileSystem.single configFileName "# flags\nreconfiguration=1\nmode = ap".toList)
    configFileName "# flags\nreconfiguration=1\nmode = ap".toList
    "reconfiguration".toList "0".toList (by decide) (by decide) (by decide) (by decide)

/-! ### C3 -/

/-- C3: for every readable and writable file and every request of names and
values of equal length such that no line of the file contains a requested name
as a substring, `editConfig` succeeds and the content it writes is equal to the
content it read. -/
theorem editConfig_no_match_unchanged (fs : FileSystem) (fileName input : GoString)
    (configName val : List GoString)
    (hread : fs.content fileName = some input) (hw : fs.writable fileName = true)
    (hlen : configName.length = val.length)
    (hno : ∀ line ∈ Split input '\n', ∀ name ∈ configName, Contains line name = false) :
    editConfig fs fileName configName val = .ok (fs.write fileName input) ∧
      (fs.write fileName input).content fileName = some input := by
  have _ := hlen
  refine ⟨?_, write_content_self _ _ _⟩
  simp only [editConfig, hread, editLines_no_match configName val _ hno, hw, if_true,
    Join_Split]

/-- C3 witness: name `missingkey`, value `5`, and a file without such a line. -/
theorem editConfig_no_match_unchanged_witness :
    editConfig (FileSystem.single configFileName "reconfiguration=1\nmode = ap\n".toList)
        configFileName ["missingkey".toList] ["5".toList]
      = .ok ((FileSystem.single configFileName "reconfiguration=1\nmode = ap\n".toList).write
          configFileName "reconfiguration=1\nmode = ap\n".toList) ∧
    ((FileSystem.single configFileName "reconfiguration=1\nmode = ap\n".toList).write
        configFileName "reconfiguration=1\nmode = ap\n".toList).content configFileName
      = some "reconfiguration=1\nmode = ap\n".toList :=
  editConfig_no_match_unchanged
    (FileSystem.single configFileName "reconfiguration=1\nmode = ap\n".toList)
    configFileName "reconfiguration=1\nmode = ap\n".toList
    ["missingkey".toList] ["5".toList] (by decide) (by decide) (by decide) (by decide)

/-! ### readConfig -/

theorem HasPrefix_append (name rest : GoString) : HasPrefix (name ++ rest) name = true := by
  induction name with
  | nil => cases rest <;> rfl
  | cons c cs ih => simp [HasPrefix, ih]

theorem Contains_of_HasPrefix (s substr : GoString) (h : HasPrefix s substr = true) :
    Contains s substr = true := by
  cases s with
  | nil => simpa [Contains] using h
  | cons c cs => simp [Contains, h]

theorem Contains_append (name rest : GoString) : Contains (name ++ rest) name = true :=
  Contains_of_HasPrefix _ _ (HasPrefix_append name rest)

theorem readConfigLoop_no_match (intSize : Nat) (name : GoString) (lines : List GoString)
    (val : Int) (h : ∀ l ∈ lines, Contains l name = false) :
    readConfigLoop intSize name lines val = .ok val := by
  induction lines with
  | nil => rfl
  | cons l rest ih =>
    simp only [readConfigLoop, h l (by simp)]
    exact ih (fun m hm => h m (by simp [hm]))

theorem readConfigLoop_match (intSize : Nat) (name line t : GoString)
    (rest : List GoString) (val v : Int) (hc : Contains line name = true)
    (ht : (Split line '=')[1]? = some t) (hv : Atoi intSize t = some v) :
    readConfigLoop intSize name (line :: rest) val = readConfigLoop intSize name rest v := by
  simp only [readConfigLoop, hc, ht, hv, if_true]

/-- The lines before the last matching line do not change the result, as long
as each matching one of them has a numeric piece after its first `=`. -/
theorem readConfigLoop_skip (intSize : Nat) (name : GoString) (pre rest : List GoString)
    (val : Int)
    (hpre : ∀ m ∈ pre, Contains m name = true →
      ∃ t v, (Split m '=')[1]? = some t ∧ Atoi intSize t = some v) :
    ∃ w, readConfigLoop intSize name (pre ++ rest) val = readConfigLoop intSize name rest w := by
  induction pre generalizing val with
  | nil => exact ⟨val, rfl⟩
  | cons m ms ih =>
    have hms : ∀ k ∈ ms, Contains k name = true →
        ∃ t v, (Split k '=')[1]? = some t ∧ Atoi intSize t = some v :=
      fun k hk => hpre k (by simp [hk])
    by_cases hc : Contains m name = true
    · obtain ⟨t, v, ht, hv⟩ := hpre m (by simp) hc
      obtain ⟨w, hw⟩ := ih v hms
      exact ⟨w, by rw [List.cons_append, readConfigLoop_match intSize name m t _ val v hc ht hv, hw]⟩
    · obtain ⟨w, hw⟩ := ih val hms
      refine ⟨w, ?_⟩
      rw [List.cons_append]
      simp only [readConfigLoop, hc]
      exact hw

/-- The first piece of a split is the text before the first separator, and the
second piece, when the separator occurs, is the text from there to the next
separator. -/
theorem Split_eq_takeWhile_cons (s : GoString) (sep : Char) :
    ∃ ps, Split s sep = s.takeWhile (fun c => c != sep) :: ps ∧
      (sep ∈ s → ps = Split ((s.dropWhile (fun c => c != sep)).drop 1) sep) ∧
      (sep ∉ s → ps = []) := by
  induction s with
  | nil => exact ⟨[], by simp [Split]⟩
  | cons c cs ih =>
    by_cases h : c = sep
    · subst h
      exact ⟨Split cs c, by simp [Split]⟩
    · obtain ⟨ps, h1, h2, h3⟩ := ih
      have hb : (c != sep) = true := by simpa using h
      refine ⟨ps, ?_, ?_, ?_⟩
      · rw [Split_cons_ne c cs sep h _ _ h1]
        simp [List.takeWhile_cons, hb]
      · intro hm
        have hm2 : sep ∈ cs := by
          rcases List.mem_cons.1 hm with e | e
          · exact absurd e.symm h
          · exact e
        rw [h2 hm2]
        simp [List.dropWhile_cons, hb]
      · intro hm
        exact h3 (fun e => hm (by simp [e]))

theorem Split_head (s : GoString) (sep : Char) :
    (Split s sep)[0]? = some (s.takeWhile (fun c => c != sep)) := by
  obtain ⟨ps, h1, _, _⟩ := Split_eq_takeWhile_cons s sep
  rw [h1]
  simp

/-- The piece `tmp[1]` that `readConfig` parses exists exactly when the line has
an `=`, and is then the text between the first `=` and the next one. -/
theorem Split_second_field (line t : GoString) (h : (Split line '=')[1]? = some t) :
    '=' ∈ line ∧ t = secondField line := by
  obtain ⟨ps, h1, h2, h3⟩ := Split_eq_takeWhile_cons line '='
  by_cases hm : '=' ∈ line
  · refine ⟨hm, ?_⟩
    rw [h1, h2 hm] at h
    have h0 := Split_head ((line.dropWhile (fun c => c != '=')).drop 1) '='
    simp only [List.getElem?_cons_succ] at h
    rw [h0] at h
    exact (Option.some.inj h).symm
  · rw [h1, h3 hm] at h
    simp at h

theorem lastMatch_cons (name l : GoString) (ls : List GoString) :
    lastMatch name (l :: ls) =
      match lastMatch name ls with
      | some m => some m
      | none => if Contains l name then some l else none := by
  unfold lastMatch
  by_cases hc : Contains l name = true
  · rw [List.filter_cons, if_pos hc, List.getLast?_cons, if_pos hc]
    generalize List.getLast? (List.filter (fun l => Contains l name) ls) = o
    cases o <;> rfl
  · rw [List.filter_cons, if_neg hc, if_neg hc]
    generalize List.getLast? (List.filter (fun l => Contains l name) ls) = o
    cases o <;> rfl

theorem lastMatch_eq_none (name : GoString) (ls : List GoString)
    (h : lastMatch name ls = none) : ∀ l ∈ ls, Contains l name = false := by
  unfold lastMatch at h
  rw [List.getLast?_eq_none_iff, List.filter_eq_nil_iff] at h
  intro l hl
  simpa using h l hl

/-- When the loop of `readConfig` returns and some line matches, the value is
the one parsed from the piece `tmp[1]` of the last matching line. -/
theorem readConfigLoop_lastMatch (intSize : Nat) (name : GoString) (lines : List GoString)
    (val v : Int) (l : GoString)
    (hok : readConfigLoop intSize name lines val = .ok v)
    (hlast : lastMatch name lines = some l) :
    ∃ t, (Split l '=')[1]? = some t ∧ Atoi intSize t = some v := by
  induction lines generalizing val with
  | nil => simp [lastMatch] at hlast
  | cons m ms ih =>
    rw [lastMatch_cons] at hlast
    by_cases hc : Contains m name = true
    · simp only [readConfigLoop, hc, if_true] at hok
      cases ht : (Split m '=')[1]? with
      | none => simp [ht] at hok
      | some t =>
        cases hv : Atoi intSize t with
        | none => simp [ht, hv] at hok
        | some w =>
          simp only [ht, hv] at hok
          cases hl : lastMatch name ms with
          | some k =>
            simp only [hl] at hlast
            cases hlast
            exact ih w hok hl
          | none =>
            simp only [hl, hc, if_true] at hlast
            cases hlast
            rw [readConfigLoop_no_match intSize name ms w (lastMatch_eq_none name ms hl)] at hok
            cases hok
            exact ⟨t, ht, hv⟩
    · simp only [readConfigLoop, hc] at hok
      cases hl : lastMatch name ms with
      | some k =>
        simp only [hl] at hlast
        cases hlast
        exact ih val hok hl
      | none =>
        simp [hl, hc] at hlast

/-! ### C4 -/

/-- C4 (refuted as stated): a file that contains the line `reconfig=1`, followed
by the line `reconfig=0`, on which `readConfig(file, "reconfig")` returns 0 and
not 1. -/
theorem readConfig_flag_line_counterexample :
    "reconfig=1".toList ∈ Split "reconfig=1\nreconfig=0".toList '\n' ∧
    readConfig 64 (FileSystem.single configFileName "reconfig=1\nreconfig=0".toList)
      configFileName "reconfig".toList = .ok 0 ∧
    readConfig 64 (FileSystem.single configFileName "reconfig=1\nreconfig=0".toList)
      configFileName "reconfig".toList ≠ .ok 1 := by
  decide

/-- C4 (amended): for an `int` of at least 2 bits and every readable file whose
last line containing `reconfig` as a substring is the line `l`, and in which
every earlier line containing `reconfig` has a numeric piece after its first
`=`: `readConfig(file, "reconfig")` returns 1 when `l` is `reconfig=1`, and
returns 0 when `l` is `reconfig=0`. -/
theorem readConfig_flag_last_line (intSize : Nat) (hsize : 2 ≤ intSize)
    (fs : FileSystem) (fileName input l : GoString) (pre post : List GoString)
    (hread : fs.content fileName = some input)
    (hsplit : Split input '\n' = pre ++ l :: post)
    (hpost : ∀ m ∈ post, Contains m "reconfig".toList = false)
    (hpre : ∀ m ∈ pre, Contains m "reconfig".toList = true →
      ∃ t v, (Split m '=')[1]? = some t ∧ Atoi intSize t = some v) :
    (l = "reconfig=1".toList → readConfig intSize fs fileName "reconfig".toList = .ok 1) ∧
    (l = "reconfig=0".toList → readConfig intSize fs fileName "reconfig".toList = .ok 0) := by
  have hpow : 1 < 2 ^ (intSize - 1) := by
    have h1 : intSize - 1 ≠ 0 := by omega
    exact Nat.one_lt_two_pow h1
  obtain ⟨w, hw⟩ := readConfigLoop_skip intSize "reconfig".toList pre (l :: post) 0 hpre
  constructor
  · intro hl
    subst hl
    have ha : Atoi intSize "1".toList = some 1 := by
      simp [Atoi, parseDigits, digitVal, hpow]
    simp only [readConfig, hread, hsplit, hw]
    rw [readConfigLoop_match intSize _ _ "1".toList post w 1 (by decide) (by decide) ha]
    exact readConfigLoop_no_match intSize _ post 1 hpost
  · intro hl
    subst hl
    have ha : Atoi intSize "0".toList = some 0 := by
      simp [Atoi, parseDigits, digitVal]
    simp only [readConfig, hread, hsplit, hw]
    rw [readConfigLoop_match intSize _ _ "0".toList post w 0 (by decide) (by decide) ha]
    exact readConfigLoop_no_match intSize _ post 0 hpost

/-- C4 witness: a 64-bit `int` and the file `reconfig=0`, `reconfig=1`, `mode=ap`,
whose last line containing `reconfig` is `reconfig=1`. -/
theorem readConfig_flag_last_line_witness :
    ("reconfig=1".toList = "reconfig=1".toList →
      readConfig 64 (FileSystem.single configFileName "reconfig=0\nreconfig=1\nmode=ap".toList)
        configFileName "reconfig".toList = .ok 1) ∧
    ("reconfig=1".toList = "reconfig=0".toList →
      readConfig 64 (FileSystem.single configFileName "reconfig=0\nreconfig=1\nmode=ap".toList)
        configFileName "reconfig".toList = .ok 0) :=
  readConfig_flag_last_line 64 (by decide)
    (FileSystem.single configFileName "reconfig=0\nreconfig=1\nmode=ap".toList)
    configFileName "reconfig=0\nreconfig=1\nmode=ap".toList "reconfig=1".toList
    ["reconfig=0".toList] ["mode=ap".toList] (by decide) (by decide) (by decide)
    (fun m hm _ => by
      rw [List.mem_singleton] at hm
      subst hm
      exact ⟨"0".toList, 0, by decide, by decide⟩)

/-! ### C5 -/

/-- C5 (refuted as stated): on the file `reconfig=1=2`, `readConfig` returns 1,
while the whole text after the first `=` of the last line containing `reconfig`
is `1=2`, from which no integer is parsed. -/
theorem readConfig_whole_text_counterexample :
    readConfig 64 (FileSystem.single configFileName "mode=ap\nreconfig=1=2".toList)
      configFileName "reconfig".toList = .ok 1 ∧
    lastMatch "reconfig".toList (Split "mode=ap\nreconfig=1=2".toList '\n')
      = some "reconfig=1=2".toList ∧
    afterFirstEq "reconfig=1=2".toList = "1=2".toList ∧
    Atoi 64 (afterFirstEq "reconfig=1=2".toList) = none := by
  decide

/-- C5 (amended): for every file and name for which `readConfig` returns an
integer and at least one line contains the name as a substring, the last such
line has an `=`, and the returned integer is the one parsed from the text
between the first `=` of that line and its next `=` (or the end of the line
when there is no second `=`). -/
theorem readConfig_returns_second_field (intSize : Nat) (fs : FileSystem)
    (fileName input name l : GoString) (v : Int)
    (hread : fs.content fileName = some input)
    (hok : readConfig intSize fs fileName name = .ok v)
    (hlast : lastMatch name (Split input '\n') = some l) :
    '=' ∈ l ∧ Atoi intSize (secondField l) = some v := by
  simp only [readConfig, hread] at hok
  obtain ⟨t, ht, hv⟩ := readConfigLoop_lastMatch intSize name _ 0 v l hok hlast
  obtain ⟨hm, hf⟩ := Split_second_field l t ht
  exact ⟨hm, hf ▸ hv⟩

/-- C5 witness: the file `mode=ap`, `reconfig=1=2` and the name `reconfig`. -/
theorem readConfig_returns_second_field_witness :
    '=' ∈ "reconfig=1=2".toList ∧ Atoi 64 (secondField "reconfig=1=2".toList) = some 1 :=
  readConfig_returns_second_field 64
    (FileSystem.single configFileName "mode=ap\nreconfig=1=2".toList)
    configFileName "mode=ap\nreconfig=1=2".toList "reconfig".toList
    "reconfig=1=2".toList 1 (by decide) (by decide) (by decide)

/-! ### C6 -/

/-- C6 (the code at the failing input): on a file whose first line mentions
`reconfig` without any `=`, `readConfig(file, "reconfig")` stops with the
runtime panic of `tmp[1]`, index out of range, not with the parse error, and
returns no integer. -/
theorem readConfig_line_without_eq_panics :
    readConfig 64 (FileSystem.single configFileName "# reconfig flag\nreconfig=1".toList)
      configFileName "reconfig".toList = .error .indexOutOfRange ∧
    (Split "# reconfig flag".toList '=').length = 1 := by
  decide

/-- In general: when the first line of a readable file that contains the name
has no `=`, `readConfig` stops with the index panic, whatever follows. -/
theorem readConfig_panics_without_eq (intSize : Nat) (fs : FileSystem)
    (fileName input name l : GoString) (pre post : List GoString)
    (hread : fs.content fileName = some input)
    (hsplit : Split input '\n' = pre ++ l :: post)
    (hpre : ∀ m ∈ pre, Contains m name = false)
    (hl : Contains l name = true) (hno : '=' ∉ l) :
    readConfig intSize fs fileName name = .error .indexOutOfRange := by
  obtain ⟨w, hw⟩ := readConfigLoop_skip intSize name pre (l :: post) 0
    (fun m hm hc => by rw [hpre m hm] at hc; cases hc)
  simp only [readConfig, hread, hsplit, hw, readConfigLoop, hl, if_true,
    Split_of_not_mem l '=' hno]
  rfl

/-! ### C2 -/

/-- C2 (the code at the failing input): on the file `reconfig=1` the startup
lookup `readConfig(file, "reconfig")` returns 1, the persistence step
`editConfig(file, ["reconfiguration"], ["0"])` of the connect handler succeeds
and writes the content back unchanged, and the lookup still returns 1. -/
theorem connect_does_not_clear_reconfig_line :
    readConfig 64 (FileSystem.single configFileName "reconfig=1".toList)
      configFileName "reconfig".toList = .ok 1 ∧
    ∃ fs', editConfig (FileSystem.single configFileName "reconfig=1".toList)
        configFileName ["reconfiguration".toList] ["0".toList] = .ok fs' ∧
      fs'.content configFileName = some "reconfig=1".toList ∧
      readConfig 64 fs' configFileName "reconfig".toList = .ok 1 :=
  ⟨by decide, _, rfl, by decide, by decide⟩

/-! ### Itoa and Atoi -/

theorem digitVal_ofNat (d : Nat) (h : d < 10) : digitVal (Char.ofNat (48 + d)) = some d := by
  interval_cases d <;> rfl

theorem ofNat_digit_ne (d : Nat) (h : d < 10) :
    Char.ofNat (48 + d) ≠ '-' ∧ Char.ofNat (48 + d) ≠ '+' ∧
      Char.ofNat (48 + d) ≠ '=' ∧ Char.ofNat (48 + d) ≠ '\n' := by
  interval_cases d <;> decide

theorem natDigits_digit (fuel n : Nat) :
    ∀ c ∈ natDigits fuel n, ∃ d, d < 10 ∧ c = Char.ofNat (48 + d) := by
  induction fuel generalizing n with
  | zero => simp [natDigits]
  | succ k ih =>
    intro c hc
    unfold natDigits at hc
    split at hc
    · rename_i hlt
      rw [List.mem_singleton] at hc
      exact ⟨n, hlt, hc⟩
    · rcases List.mem_append.1 hc with e | e
      · exact ih (n / 10) c e
      · rw [List.mem_singleton] at e
        exact ⟨n % 10, Nat.mod_lt _ (by decide), e⟩

theorem natDigits_ne_nil (fuel n : Nat) : natDigits (fuel + 1) n ≠ [] := by
  unfold natDigits
  split <;> simp

theorem parseDigits_append_single (ds : GoString) (c : Char) (acc m d : Nat)
    (h : parseDigits ds acc = some m) (hd : digitVal c = some d) :
    parseDigits (ds ++ [c]) acc = some (m * 10 + d) := by
  induction ds generalizing acc with
  | nil =>
    simp only [parseDigits] at h
    cases h
    simp [parseDigits, hd]
  | cons x xs ih =>
    simp only [List.cons_append, parseDigits] at h ⊢
    cases hx : digitVal x with
    | none => simp [hx] at h
    | some e =>
      simp only [hx] at h ⊢
      exact ih _ h

/-- With enough fuel, the decimal digits produced for `n` parse back to `n`. -/
theorem parseDigits_natDigits (fuel n : Nat) (h : n < fuel) :
    parseDigits (natDigits fuel n) 0 = some n := by
  induction fuel generalizing n with
  | zero => omega
  | succ k ih =>
    unfold natDigits
    split
    · rename_i hlt
      simp [parseDigits, digitVal_ofNat n hlt]
    · rename_i hge
      have h1 : n / 10 < k := by omega
      have h2 := parseDigits_append_single _ (Char.ofNat (48 + n % 10)) 0 (n / 10) (n % 10)
        (ih (n / 10) h1) (digitVal_ofNat _ (Nat.mod_lt _ (by decide)))
      rw [h2]
      congr 1
      omega

theorem not_mem_natDigits (fuel n : Nat) (c : Char)
    (hc : ∀ d, d < 10 → Char.ofNat (48 + d) ≠ c) : c ∉ natDigits fuel n := by
  intro hm
  obtain ⟨d, hd, e⟩ := natDigits_digit fuel n c hm
  exact hc d hd e.symm

theorem not_mem_Itoa (n : Int) : '=' ∉ Itoa n ∧ '\n' ∉ Itoa n := by
  have h1 : '=' ∉ natDigits (n.natAbs + 1) n.natAbs :=
    not_mem_natDigits _ _ _ (fun d hd => (ofNat_digit_ne d hd).2.2.1)
  have h2 : '\n' ∉ natDigits (n.natAbs + 1) n.natAbs :=
    not_mem_natDigits _ _ _ (fun d hd => (ofNat_digit_ne d hd).2.2.2)
  unfold Itoa
  split
  · constructor
    · intro hm
      rcases List.mem_cons.1 hm with e | e
      · exact absurd e (by decide)
      · exact h1 e
    · intro hm
      rcases List.mem_cons.1 hm with e | e
      · exact absurd e (by decide)
      · exact h2 e
  · exact ⟨h1, h2⟩

/-- The function `strconv.Atoi` reads back what `strconv.Itoa` wrote, for every
integer in the range of an `int` of `intSize` bits. -/
theorem Atoi_Itoa (intSize : Nat) (n : Int)
    (hlo : -(2 : Int) ^ (intSize - 1) ≤ n) (hhi : n < (2 : Int) ^ (intSize - 1)) :
    Atoi intSize (Itoa n) = some n := by
  have hcast : ((2 : Int) ^ (intSize - 1)) = ((2 ^ (intSize - 1) : Nat) : Int) := by
    push_cast
    rfl
  rw [hcast] at hlo hhi
  have key : ∀ P : Nat, -(P : Int) ≤ n → n < (P : Int) →
      (n < 0 → n.natAbs ≤ P ∧ -((n.natAbs : Nat) : Int) = n) ∧
      (¬ n < 0 → n.natAbs < P ∧ ((n.natAbs : Nat) : Int) = n) := by
    intro P h1 h2
    omega
  obtain ⟨kneg, kpos⟩ := key _ hlo hhi
  have hp := parseDigits_natDigits (n.natAbs + 1) n.natAbs (Nat.lt_succ_self _)
  obtain ⟨c, r, hcr⟩ := List.exists_cons_of_ne_nil (natDigits_ne_nil n.natAbs n.natAbs)
  unfold Itoa
  split
  · rename_i hneg
    obtain ⟨hle, hn⟩ := kneg hneg
    simp only [Atoi, true_or, if_true, hcr, List.isEmpty_cons, Bool.false_eq_true, if_false]
    rw [← hcr, hp]
    simp only [hle, if_true, hn]
  · rename_i hpos
    obtain ⟨hlt, hn⟩ := kpos hpos
    obtain ⟨d, hd, hcd⟩ := natDigits_digit _ _ c (by rw [hcr]; simp)
    have hne := ofNat_digit_ne d hd
    rw [← hcd] at hne
    rw [hcr]
    simp only [Atoi, hne.1, hne.2.1, or_self, if_false, List.isEmpty_cons, Bool.false_eq_true]
    rw [← hcr, hp]
    simp only [hlt, if_true, hn]

/-! ### C10 -/

theorem Split_rewritten (name t : GoString) (hn : '=' ∉ name) (ht : '=' ∉ t) :
    (Split (name ++ '=' :: t) '=')[1]? = some t := by
  rw [Split_append_sep name t '=' hn, Split_of_not_mem t '=' ht]
  rfl

theorem readConfigLoop_fixed (intSize : Nat) (name target t : GoString) (v : Int)
    (lines : List GoString)
    (ht : (Split target '=')[1]? = some t) (hv : Atoi intSize t = some v)
    (hall : ∀ l ∈ lines, Contains l name = true → l = target) :
    readConfigLoop intSize name lines v = .ok v := by
  induction lines with
  | nil => rfl
  | cons l rest ih =>
    have hrest : ∀ m ∈ rest, Contains m name = true → m = target :=
      fun m hm => hall m (by simp [hm])
    by_cases hc : Contains l name = true
    · have hl := hall l (by simp) hc
      rw [readConfigLoop_match intSize name l t rest v v hc (hl ▸ ht) hv]
      exact ih hrest
    · simp only [readConfigLoop, hc]
      exact ih hrest

/-- When every line that contains `name` is the line `target`, and there is
such a line, the loop of `readConfig` returns the integer of `target`. -/
theorem readConfigLoop_rewritten (intSize : Nat) (name target t : GoString) (v val : Int)
    (lines : List GoString)
    (ht : (Split target '=')[1]? = some t) (hv : Atoi intSize t = some v)
    (hall : ∀ l ∈ lines, Contains l name = true → l = target)
    (hex : ∃ l ∈ lines, Contains l name = true) :
    readConfigLoop intSize name lines val = .ok v := by
  induction lines with
  | nil =>
    obtain ⟨l, hl, _⟩ := hex
    simp at hl
  | cons l rest ih =>
    have hrest : ∀ m ∈ rest, Contains m name = true → m = target :=
      fun m hm => hall m (by simp [hm])
    by_cases hc : Contains l name = true
    · have hl := hall l (by simp) hc
      rw [readConfigLoop_match intSize name l t rest val v hc (hl ▸ ht) hv]
      exact readConfigLoop_fixed intSize name target t v rest ht hv hrest
    · simp only [readConfigLoop, hc]
      apply ih hrest
      obtain ⟨m, hm, hcm⟩ := hex
      rcases List.mem_cons.1 hm with e | e
      · subst e
        exact absurd hcm hc
      · exact ⟨m, e, hcm⟩

/-- C10: write-then-read round trip. For an `int` of any width `intSize`, every
readable and writable file, every name with neither `=` nor a newline such that
some line of the file contains it as a substring, and every integer `n` in the
range of that `int`: `editConfig(file, [name], [Itoa(n)])` succeeds, and on
the file it wrote `readConfig(file, name)` succeeds and returns `n`. -/
theorem editConfig_then_readConfig (intSize : Nat) (fs : FileSystem)
    (fileName input name : GoString) (n : Int)
    (hread : fs.content fileName = some input) (hw : fs.writable fileName = true)
    (heq : '=' ∉ name) (hnl : '\n' ∉ name)
    (hex : ∃ line ∈ Split input '\n', Contains line name = true)
    (hlo : -(2 : Int) ^ (intSize - 1) ≤ n) (hhi : n < (2 : Int) ^ (intSize - 1)) :
    ∃ fs', editConfig fs fileName [name] [Itoa n] = .ok fs' ∧
      readConfig intSize fs' fileName name = .ok n := by
  obtain ⟨hieq, hinl⟩ := not_mem_Itoa n
  obtain ⟨output, he, hs⟩ := editConfig_single_eq fs fileName input name (Itoa n)
    hread hw hnl hinl
  refine ⟨fs.write fileName output, he, ?_⟩
  simp only [readConfig, write_content_self, hs]
  apply readConfigLoop_rewritten intSize name (name ++ '=' :: Itoa n) (Itoa n) n 0 _
    (Split_rewritten name (Itoa n) heq hieq) (Atoi_Itoa intSize n hlo hhi)
  · intro l hl hc
    obtain ⟨m, _, rfl⟩ := List.mem_map.1 hl
    unfold rewriteLine at hc ⊢
    split
    · rfl
    · rename_i hm
      rw [if_neg hm] at hc
      exact absurd hc hm
  · obtain ⟨line, hline, hc⟩ := hex
    refine ⟨rewriteLine name (Itoa n) line, List.mem_map.2 ⟨line, hline, rfl⟩, ?_⟩
    unfold rewriteLine
    rw [if_pos hc]
    exact Contains_append name _

/-- C10 witness: a 64-bit `int`, the name `reconfiguration`, the integer -42 and
a file with two lines containing the name. -/
theorem editConfig_then_readConfig_witness :
    ∃ fs', editConfig
        (FileSystem.single configFileName "reconfiguration=1\nmode=ap\n# reconfiguration".toList)
        configFileName ["reconfiguration".toList] [Itoa (-42)] = .ok fs' ∧
      readConfig 64 fs' configFileName "reconfiguration".toList = .ok (-42) :=
  editConfig_then_readConfig 64
    (FileSystem.single configFileName "reconfiguration=1\nmode=ap\n# reconfiguration".toList)
    configFileName "reconfiguration=1\nmode=ap\n# reconfiguration".toList
    "reconfiguration".toList (-42) (by decide) (by decide) (by decide) (by decide)
    ⟨"reconfiguration=1".toList, by decide, by decide⟩ (by decide) (by decide)

/-! ### The persistence step of the connect handler when the two names agree -/

/-- On a readable and writable file in which every line containing `reconfig`
also contains `reconfiguration`, and some line does, the persistence step
`editConfig(file, ["reconfiguration"], ["0"])` succeeds and the lookup
`readConfig(file, "reconfig")` returns 0 afterwards. -/
theorem connect_clears_when_names_agree (intSize : Nat) (fs : FileSystem)
    (fileName input : GoString)
    (hread : fs.content fileName = some input) (hw : fs.writable fileName = true)
    (hagree : ∀ l ∈ Split input '\n', Contains l "reconfig".toList = true →
      Contains l "reconfiguration".toList = true)
    (hex : ∃ l ∈ Split input '\n', Contains l "reconfig".toList = true) :
    ∃ fs', editConfig fs fileName ["reconfiguration".toList] ["0".toList] = .ok fs' ∧
      readConfig intSize fs' fileName "reconfig".toList = .ok 0 := by
  obtain ⟨output, he, hs⟩ := editConfig_single_eq fs fileName input
    "reconfiguration".toList "0".toList hread hw (by decide) (by decide)
  refine ⟨fs.write fileName output, he, ?_⟩
  have ha : Atoi intSize "0".toList = some 0 := by
    simp [Atoi, parseDigits, digitVal]
  simp only [readConfig, write_content_self, hs]
  apply readConfigLoop_rewritten intSize "reconfig".toList "reconfiguration=0".toList
    "0".toList 0 0 _ (by decide) ha
  · intro l hl hc
    obtain ⟨m, hm, rfl⟩ := List.mem_map.1 hl
    unfold rewriteLine at hc ⊢
    split
    · rfl
    · rename_i hno
      rw [if_neg hno] at hc
      exact absurd (hagree m hm hc) hno
  · obtain ⟨l, hl, hc⟩ := hex
    refine ⟨rewriteLine "reconfiguration".toList "0".toList l,
      List.mem_map.2 ⟨l, hl, rfl⟩, ?_⟩
    unfold rewriteLine
    rw [if_pos (hagree l hl hc)]
    decide

/-! ### The handover: timing -/

theorem TimingInv_init (t : Nat) : TimingInv (Handover.init t) := by
  constructor <;> simp [Handover.init]

theorem TimingInv_tick (h : Handover) (d : Nat) (inv : TimingInv h) :
    TimingInv { h with now := h.now + d } := by
  obtain ⟨i1, i2, i3, ip, i4, i5, i6, i7, i8, i9, i10⟩ := inv
  constructor
  · exact i1
  · exact i2
  · exact i3
  · intro t0 h0
    exact Nat.le_trans (ip t0 h0) (Nat.le_add_right _ _)
  · intro t0 t h0 ht
    have := i4 t0 t h0 ht
    exact ⟨this.1, Nat.le_trans this.2 (Nat.le_add_right _ _)⟩
  · exact i5
  · exact i6
  · intro hp t0 h0
    exact Nat.le_trans (i7 hp t0 h0) (Nat.le_add_right _ _)
  · exact i8
  · exact i9
  · intro hp
    obtain ⟨td, h1, h2⟩ := i10 hp
    exact ⟨td, h1, Nat.le_trans h2 (Nat.le_add_right _ _)⟩

theorem mem_cons_other (t t1 : Nat) (e e1 : Event) (tr : List (Nat × Event))
    (hne : e ≠ e1) : (t, e) ∈ (t1, e1) :: tr ↔ (t, e) ∈ tr := by
  constructor
  · intro hm
    rcases List.mem_cons.1 hm with heq | hm
    · exact absurd (congrArg Prod.snd heq) hne
    · exact hm
  · intro hm
    exact List.mem_cons_of_mem _ hm

/-- An event that is neither the signal, nor the call of `DisableAP`, nor the
close, recorded while the goroutine is past its receive, keeps the
invariant. -/
theorem TimingInv_note (h k : Handover) (inv : TimingInv h)
    (hpc : k.pc = h.pc) (hnow : k.now = h.now) (hsl : k.sleepUntil = h.sleepUntil)
    (hne : h.pc ≠ .awaitSignal)
    (hs : ∀ t, (t, Event.signalReceived) ∈ k.trace ↔ (t, Event.signalReceived) ∈ h.trace)
    (hd : ∀ t, (t, Event.disableAP) ∈ k.trace ↔ (t, Event.disableAP) ∈ h.trace)
    (hc : ∀ t, (t, Event.chanClosed) ∈ k.trace ↔ (t, Event.chanClosed) ∈ h.trace) :
    TimingInv k := by
  obtain ⟨_, i2, i3, ip, i4, i5, i6, i7, i8, i9, i10⟩ := inv
  constructor
  · intro hp
    exact absurd (hpc ▸ hp) hne
  · intro _
    obtain ⟨t0, h0⟩ := i2 hne
    exact ⟨t0, (hs t0).2 h0⟩
  · intro t0 t1 h0 h1
    exact i3 t0 t1 ((hs t0).1 h0) ((hs t1).1 h1)
  · intro t0 h0
    rw [hnow]
    exact ip t0 ((hs t0).1 h0)
  · intro t0 t h0 ht
    rw [hnow]
    exact i4 t0 t ((hs t0).1 h0) ((hd t).1 ht)
  · intro t0 t h0 ht
    obtain ⟨h1, td, h2, h3⟩ := i5 t0 t ((hs t0).1 h0) ((hc t).1 ht)
    exact ⟨h1, td, (hd td).2 h2, h3⟩
  · intro hp t0 h0
    rw [hsl]
    exact i6 (hpc ▸ hp) t0 ((hs t0).1 h0)
  · intro hp t0 h0
    rw [hnow]
    exact i7 (hpc ▸ hp) t0 ((hs t0).1 h0)
  · intro hp
    obtain ⟨td, h1⟩ := i8 (hpc ▸ hp)
    exact ⟨td, (hd td).2 h1⟩
  · intro hp
    obtain ⟨td, h1, h2⟩ := i9 (hpc ▸ hp)
    exact ⟨td, (hd td).2 h1, hsl ▸ h2⟩
  · intro hp
    obtain ⟨td, h1, h2⟩ := i10 (hpc ▸ hp)
    exact ⟨td, (hd td).2 h1, hnow ▸ h2⟩

theorem TimingInv_chanSend (h : Handover) (inv : TimingInv h) :
    TimingInv (chanSend h).1 := by
  unfold chanSend
  split
  · rename_i hc
    have hp : h.pc ≠ .awaitSignal := fun e => by simp [(inv.await e).2] at hc
    exact TimingInv_note h _ inv rfl rfl rfl hp
      (fun t => mem_cons_other _ _ _ _ _ (by decide))
      (fun t => mem_cons_other _ _ _ _ _ (by decide))
      (fun t => mem_cons_other _ _ _ _ _ (by decide))
  · split
    · rename_i hc hp
      obtain ⟨htr, _⟩ := inv.await hp
      constructor <;> simp [htr]
    · rename_i hc hp
      exact TimingInv_note h _ inv rfl rfl rfl hp
        (fun t => mem_cons_other _ _ _ _ _ (by decide))
        (fun t => mem_cons_other _ _ _ _ _ (by decide))
        (fun t => mem_cons_other _ _ _ _ _ (by decide))

theorem mem_replicate_append_other (t t1 : Nat) (e e1 : Event) (n : Nat)
    (tr : List (Nat × Event)) (hne : e ≠ e1) :
    (t, e) ∈ List.replicate n (t1, e1) ++ tr ↔ (t, e) ∈ tr := by
  constructor
  · intro hm
    rcases List.mem_append.1 hm with hm | hm
    · exact absurd (congrArg Prod.snd (List.eq_of_mem_replicate hm)) hne
    · exact hm
  · intro hm
    exact List.mem_append_right _ hm

/-- A step of the goroutine that records no event and leaves the clock alone
keeps the invariant, once the new program counter and sleep bound are
justified. -/
theorem TimingInv_move (h k : Handover) (inv : TimingInv h)
    (hnow : k.now = h.now) (htr : k.trace = h.trace)
    (hne : h.pc ≠ .awaitSignal) (hne1 : k.pc ≠ .awaitSignal)
    (g6 : k.pc = .graceSleep →
      ∀ t0, (t0, Event.signalReceived) ∈ h.trace → t0 + 5 * Second ≤ k.sleepUntil)
    (g7 : k.pc = .callDisableAP →
      ∀ t0, (t0, Event.signalReceived) ∈ h.trace → t0 + 5 * Second ≤ h.now)
    (g8 : k.pc = .inDisableAP → ∃ td, (td, Event.disableAP) ∈ h.trace)
    (g9 : k.pc = .settleSleep →
      ∃ td, (td, Event.disableAP) ∈ h.trace ∧ td + 2 * Second ≤ k.sleepUntil)
    (g10 : k.pc = .closeChan →
      ∃ td, (td, Event.disableAP) ∈ h.trace ∧ td + 2 * Second ≤ h.now) :
    TimingInv k := by
  obtain ⟨_, i2, i3, ip, i4, i5, _, _, _, _, _⟩ := inv
  constructor
  · intro hp
    exact absurd hp hne1
  · intro _
    rw [htr]
    exact i2 hne
  · rw [htr]
    exact i3
  · rw [htr, hnow]
    exact ip
  · rw [htr, hnow]
    exact i4
  · rw [htr]
    exact i5
  · rw [htr]
    exact g6
  · rw [htr, hnow]
    exact g7
  · rw [htr]
    exact g8
  · rw [htr]
    exact g9
  · rw [htr, hnow]
    exact g10

theorem TimingInv_taskStep (h : Handover) (inv : TimingInv h) :
    TimingInv (taskStep h) := by
  unfold taskStep
  split
  · exact inv
  · rename_i hpc
    have hne : h.pc ≠ .awaitSignal := by simp [hpc]
    split
    · refine TimingInv_move h _ inv rfl rfl hne (by simp) ?_ (by simp) (by simp) (by simp)
        (by simp)
      intro _ t0 h0
      have := inv.past t0 h0
      show t0 + 5 * Second ≤ h.now + 5 * Second
      omega
    · exact TimingInv_move h _ inv rfl rfl hne (by simp) (by simp) (by simp) (by simp)
        (by simp) (by simp)
  · rename_i hpc
    have hne : h.pc ≠ .awaitSignal := by simp [hpc]
    split
    · rename_i hle
      refine TimingInv_move h _ inv rfl rfl hne (by simp) (by simp) ?_ (by simp) (by simp)
        (by simp)
      intro _ t0 h0
      exact Nat.le_trans (inv.pcGrace hpc t0 h0) hle
    · exact inv
  · rename_i hpc
    have hne : h.pc ≠ .awaitSignal := by simp [hpc]
    obtain ⟨_, i2, i3, ip, i4, i5, _, i7, _, _, _⟩ := inv
    have hs : ∀ t, (t, Event.signalReceived) ∈ (h.now, Event.disableAP) :: h.trace ↔
        (t, Event.signalReceived) ∈ h.trace := fun t => mem_cons_other _ _ _ _ _ (by decide)
    have hc : ∀ t, (t, Event.chanClosed) ∈ (h.now, Event.disableAP) :: h.trace ↔
        (t, Event.chanClosed) ∈ h.trace := fun t => mem_cons_other _ _ _ _ _ (by decide)
    constructor
    · intro hp
      simp at hp
    · intro _
      obtain ⟨t0, h0⟩ := i2 hne
      exact ⟨t0, (hs t0).2 h0⟩
    · intro t0 t1 h0 h1
      exact i3 t0 t1 ((hs t0).1 h0) ((hs t1).1 h1)
    · intro t0 h0
      exact ip t0 ((hs t0).1 h0)
    · intro t0 t h0 ht
      rcases List.mem_cons.1 ht with heq | ht
      · have ht : t = h.now := congrArg Prod.fst heq
        have := i7 hpc t0 ((hs t0).1 h0)
        show t0 + 5 * Second ≤ t ∧ t ≤ h.now
        omega
      · exact i4 t0 t ((hs t0).1 h0) ht
    · intro t0 t h0 ht
      obtain ⟨h1, td, h2, h3⟩ := i5 t0 t ((hs t0).1 h0) ((hc t).1 ht)
      exact ⟨h1, td, List.mem_cons_of_mem _ h2, h3⟩
    · intro hp
      simp at hp
    · intro hp
      simp at hp
    · intro _
      exact ⟨h.now, List.mem_cons_self _ _⟩
    · intro hp
      simp at hp
    · intro hp
      simp at hp
  · rename_i hpc
    have hne : h.pc ≠ .awaitSignal := by simp [hpc]
    refine TimingInv_move h _ inv rfl rfl hne (by simp) (by simp) (by simp) (by simp) ?_
      (by simp)
    intro _
    obtain ⟨td, hd⟩ := inv.pcIn hpc
    obtain ⟨t0, h0⟩ := inv.signalled hne
    have := (inv.grace t0 td h0 hd).2
    refine ⟨td, hd, ?_⟩
    show td + 2 * Second ≤ h.now + 2 * Second
    omega
  · rename_i hpc
    have hne : h.pc ≠ .awaitSignal := by simp [hpc]
    split
    · rename_i hle
      refine TimingInv_move h _ inv rfl rfl hne (by simp) (by simp) (by simp) (by simp)
        (by simp) ?_
      intro _
      obtain ⟨td, hd, hb⟩ := inv.pcSettle hpc
      exact ⟨td, hd, Nat.le_trans hb hle⟩
    · exact inv
  · rename_i hpc
    have hne : h.pc ≠ .awaitSignal := by simp [hpc]
    obtain ⟨_, i2, i3, ip, i4, i5, _, _, _, _, i10⟩ := inv
    have hs : ∀ t, (t, Event.signalReceived) ∈
        List.replicate h.blockedSenders (h.now, Event.sendPanic)
          ++ (h.now, Event.chanClosed) :: h.trace ↔
        (t, Event.signalReceived) ∈ h.trace := fun t =>
      (mem_replicate_append_other _ _ _ _ _ _ (by decide)).trans
        (mem_cons_other _ _ _ _ _ (by decide))
    have hd : ∀ t, (t, Event.disableAP) ∈
        List.replicate h.blockedSenders (h.now, Event.sendPanic)
          ++ (h.now, Event.chanClosed) :: h.trace ↔
        (t, Event.disableAP) ∈ h.trace := fun t =>
      (mem_replicate_append_other _ _ _ _ _ _ (by decide)).trans
        (mem_cons_other _ _ _ _ _ (by decide))
    constructor
    · intro hp
      simp at hp
    · intro _
      obtain ⟨t0, h0⟩ := i2 hne
      exact ⟨t0, (hs t0).2 h0⟩
    · intro t0 t1 h0 h1
      exact i3 t0 t1 ((hs t0).1 h0) ((hs t1).1 h1)
    · intro t0 h0
      exact ip t0 ((hs t0).1 h0)
    · intro t0 t h0 ht
      exact i4 t0 t ((hs t0).1 h0) ((hd t).1 ht)
    · intro t0 t h0 ht
      have ht1 := (mem_replicate_append_other _ _ _ _ _ _ (by decide)).1 ht
      rcases List.mem_cons.1 ht1 with heq | ht2
      · have ht : t = h.now := congrArg Prod.fst heq
        obtain ⟨td, h1, h2⟩ := i10 hpc
        have := (i4 t0 td ((hs t0).1 h0) h1).1
        refine ⟨?_, td, (hd td).2 h1, ?_⟩
        · omega
        · omega
      · obtain ⟨h1, td, h2, h3⟩ := i5 t0 t ((hs t0).1 h0) ht2
        exact ⟨h1, td, (hd td).2 h2, h3⟩
    · intro hp
      simp at hp
    · intro hp
      simp at hp
    · intro hp
      simp at hp
    · intro hp
      simp at hp
    · intro hp
      simp at hp
  · exact inv

theorem connectHandler_handover {Conn : Type} (env : Env Conn) (fs : FileSystem)
    (h : Handover) (w : ResponseWriter) (body : Except GoString GoString) :
    (connectHandler env fs h w body).2.2.1 = h ∨
      (connectHandler env fs h w body).2.2.1 = (chanSend h).1 := by
  unfold connectHandler
  simp only
  split
  · exact Or.inl rfl
  · split
    · exact Or.inl rfl
    · split
      · exact Or.inl rfl
      · exact Or.inr rfl

theorem TimingInv_step {Conn : Type} (env : Env Conn) (p : Proc) (a : Action)
    (inv : TimingInv p.handover) : TimingInv (step env p a).handover := by
  by_cases hx : p.exited = true
  · cases a <;> simpa only [step, hx, if_true] using inv
  · cases a with
    | tick d =>
      simp only [step, hx]
      exact TimingInv_tick p.handover d inv
    | task =>
      simp only [step, hx]
      exact TimingInv_taskStep p.handover inv
    | connect body =>
      simp only [step, hx]
      show TimingInv (connectHandler env p.fs p.handover ResponseWriter.fresh body).2.2.1
      rcases connectHandler_handover env p.fs p.handover ResponseWriter.fresh body with e | e
      · rw [e]
        exact inv
      · rw [e]
        exact TimingInv_chanSend p.handover inv

theorem TimingInv_run {Conn : Type} (env : Env Conn) (acts : List Action) (p : Proc)
    (inv : TimingInv p.handover) : TimingInv (run env p acts).handover := by
  induction acts generalizing p with
  | nil => exact inv
  | cons a rest ih => exact ih (step env p a) (TimingInv_step env p a inv)

/-! ### C7 -/

/-- C7: in every run of the process from the start of the webserver, whatever
the wireless service, the requests and the scheduling: every call of
`DisableAP` by the handover task happens at least 5 seconds after the signal
was received on `configMsg`; every close of `configMsg`, the final state,
happens at least 7 seconds after that signal and at least 2 seconds after a
call of `DisableAP`; and the signal is received at most once. A complete
handover is such a run: signal at 0, `DisableAP` at 5 seconds, close at 7. -/
theorem handover_timing :
    (∀ (Conn : Type) (env : Env Conn) (fs : FileSystem) (start : Nat) (acts : List Action),
      (∀ t, (t, Event.disableAP) ∈ (run env (Proc.start fs start) acts).handover.trace →
        ∃ t0, (t0, Event.signalReceived) ∈ (run env (Proc.start fs start) acts).handover.trace ∧
          t0 + 5 * Second ≤ t) ∧
      (∀ t, (t, Event.chanClosed) ∈ (run env (Proc.start fs start) acts).handover.trace →
        ∃ t0 td,
          (t0, Event.signalReceived) ∈ (run env (Proc.start fs start) acts).handover.trace ∧
          t0 + 7 * Second ≤ t ∧
          (td, Event.disableAP) ∈ (run env (Proc.start fs start) acts).handover.trace ∧
          td + 2 * Second ≤ t) ∧
      (∀ t0 t1,
        (t0, Event.signalReceived) ∈ (run env (Proc.start fs start) acts).handover.trace →
        (t1, Event.signalReceived) ∈ (run env (Proc.start fs start) acts).handover.trace →
        t0 = t1)) ∧
    (run Env.stub (Proc.start (FileSystem.single configFileName "reconfiguration=1".toList) 0)
        handoverActs).handover.trace
      = [(7 * Second, Event.chanClosed), (5 * Second, Event.disableAP),
          (0, Event.signalReceived)] := by
  refine ⟨?_, by decide⟩
  intro Conn env fs start acts
  have inv := TimingInv_run env acts (Proc.start fs start) (TimingInv_init start)
  generalize (run env (Proc.start fs start) acts).handover = h at inv
  have hsig : ∀ t e, (t, e) ∈ h.trace → ∃ t0, (t0, Event.signalReceived) ∈ h.trace := by
    intro t e hm
    apply inv.signalled
    intro hp
    rw [(inv.await hp).1] at hm
    simp at hm
  refine ⟨?_, ?_, inv.oneSignal⟩
  · intro t ht
    obtain ⟨t0, h0⟩ := hsig t _ ht
    exact ⟨t0, h0, (inv.grace t0 t h0 ht).1⟩
  · intro t ht
    obtain ⟨t0, h0⟩ := hsig t _ ht
    obtain ⟨h1, td, h2, h3⟩ := inv.final t0 t h0 ht
    exact ⟨t0, td, h0, h1, h2, h3⟩

/-! ### C8 -/

/-- C8 (the code at the failing inputs): a second successful POST `/connect`
served after a complete handover sends on the closed channel and its handler
panics; a second one served right after the first finds no receiver and its
handler blocks in the send, and panics once the handover task closes the
channel. -/
theorem second_connect_panics_or_blocks :
    ((run Env.stub (Proc.start (FileSystem.single configFileName "reconfiguration=1".toList) 0)
        (handoverActs ++ [.connect (.ok goodBody)])).responses.map Prod.snd
      = [HandlerEnd.panicked, HandlerEnd.returned]) ∧
    ((run Env.stub (Proc.start (FileSystem.single configFileName "reconfiguration=1".toList) 0)
        [.connect (.ok goodBody), .connect (.ok goodBody)]).responses.map Prod.snd
      = [HandlerEnd.blocked, HandlerEnd.returned]) ∧
    ((run Env.stub (Proc.start (FileSystem.single configFileName "reconfiguration=1".toList) 0)
        (.connect (.ok goodBody) :: handoverActs)).handover.trace
      = [(7 * Second, Event.sendPanic), (7 * Second, Event.chanClosed),
          (5 * Second, Event.disableAP), (0, Event.senderBlocked),
          (0, Event.signalReceived)]) := by
  decide

/-! ### C9 -/

/-- C9 (the code at the failing input): for a POST `/connect` whose body does
not decode, served while `ConnectNetwork` succeeds, the handler goes on after
`marshallPost` has answered: the response has status 500 and its body is the
error text and a newline followed by the JSON envelope, the flag line of the
file is rewritten, and the handover is signalled. -/
theorem connectHandler_bad_body_writes_envelope :
    (connectHandler Env.stub (FileSystem.single configFileName "reconfiguration=1".toList)
        (Handover.init 0) ResponseWriter.fresh (.ok "not json".toList)).1.status = some 500 ∧
    (connectHandler Env.stub (FileSystem.single configFileName "reconfiguration=1".toList)
        (Handover.init 0) ResponseWriter.fresh (.ok "not json".toList)).1.body
      = "invalid character".toList ++ ['\n'] ++ okEnvelope ∧
    (connectHandler Env.stub (FileSystem.single configFileName "reconfiguration=1".toList)
        (Handover.init 0) ResponseWriter.fresh (.ok "not json".toList)).2.1.content configFileName
      = some "reconfiguration=0".toList ∧
    (connectHandler Env.stub (FileSystem.single configFileName "reconfiguration=1".toList)
        (Handover.init 0) ResponseWriter.fresh (.ok "not json".toList)).2.2.1.trace
      = [(0, Event.signalReceived)] := by
  decide

end Txwifi
